import Mathlib

/-
Verification development for the PSGAN makeup-transfer generator
(ppgan/models/generators/makeup.py).

Modelling conventions:
  - Tensors are total functions over Fin-indexed coordinates with values in ℝ
    (the tensor engine's floating point is idealized as real arithmetic).
  - Learned sub-modules whose weights are opaque to the spec (the TNetDown
    encoder inside MANet, the residual bottlenecks, the transposed-convolution
    up-samplers, the final 7x7 image-regression convolution, and MDNet inside
    the generator) are modelled as function-valued fields of the enclosing
    structure; their output shapes are encoded in their types, matching the
    shape theorems proved for the concrete layer stacks below.
  - All the arithmetic the claims are about (feature flattening and damping,
    correlation matmul, mask suppression, softmax, the 1x1-convolution
    MatrixHead, modulation aggregation and fusion, ReLU, tanh, PONO) is
    translated concretely from the source.
  - Python strings are modelled as lists of character codes, so the mode
    argument of ResidualBlock is an Option (List ℕ).
-/

/-- Rank-4 tensor of shape (batch, channel, height, width). -/
def T4 (b c h w : ℕ) : Type := Fin b → Fin c → Fin h → Fin w → ℝ

/-- Rank-3 tensor of shape (batch, rows, cols). -/
def T3 (b m n : ℕ) : Type := Fin b → Fin m → Fin n → ℝ

/-- Row-major flattened index of the spatial position (i, j) in an h x w map. -/
def flatIdx {h w : ℕ} (i : Fin h) (j : Fin w) : Fin (h * w) :=
  ⟨i.1 * w + j.1, by
    have hi := i.2
    have hj := j.2
    calc i.1 * w + j.1 < i.1 * w + w := by omega
    _ = (i.1 + 1) * w := by ring
    _ ≤ h * w := Nat.mul_le_mul_right w hi⟩

/-- Spatial row recovered from a row-major flattened index. -/
def rowOf {h w : ℕ} (k : Fin (h * w)) : Fin h :=
  ⟨k.1 / w, by
    have hk := k.2
    have hmul : 0 < h * w := Nat.lt_of_le_of_lt (Nat.zero_le _) hk
    have hw : 0 < w := by
      rcases Nat.eq_zero_or_pos w with h0 | h1
      · rw [h0, Nat.mul_zero] at hmul
        exact absurd hmul (Nat.lt_irrefl 0)
      · exact h1
    exact (Nat.div_lt_iff_lt_mul hw).mpr hk⟩

/-- Spatial column recovered from a row-major flattened index. -/
def colOf {h w : ℕ} (k : Fin (h * w)) : Fin w :=
  ⟨k.1 % w, by
    have hk := k.2
    have hmul : 0 < h * w := Nat.lt_of_le_of_lt (Nat.zero_le _) hk
    have hw : 0 < w := by
      rcases Nat.eq_zero_or_pos w with h0 | h1
      · rw [h0, Nat.mul_zero] at hmul
        exact absurd hmul (Nat.lt_irrefl 0)
      · exact h1
    exact Nat.mod_lt _ hw⟩

/-- Reshape of a (b, c, h, w) tensor to (b, c, h*w), as in x.reshape([-1, c, h * w]). -/
def reshapeT4toT3 {b c h w : ℕ} (t : T4 b c h w) : T3 b c (h * w) :=
  fun bi ch k => t bi ch (rowOf k) (colOf k)

/-- Reshape of a single-channel (b, 1, h, w) tensor to a column (b, h*w, 1),
as in beta.reshape([-1, h2 * w2, 1]). -/
def reshapeCol {b h w : ℕ} (t : T4 b 1 h w) : T3 b (h * w) 1 :=
  fun bi k z => t bi z (rowOf k) (colOf k)

/-- Reshape of a column (b, h*w, 1) back to a single-channel (b, 1, h, w) map,
as in beta.reshape([-1, 1, h2, w2]). -/
def reshapeT3toT4 {b h w : ℕ} (t : T3 b (h * w) 1) : T4 b 1 h w :=
  fun bi z i j => t bi (flatIdx i j) z

/-- Batched matrix product, paddle.matmul(A, B). -/
def matmul3 {b m n q : ℕ} (A : T3 b m n) (B : T3 b n q) : T3 b m q :=
  fun bi i j => ∑ k, A bi i k * B bi k j

/-- Batched matrix product with the first factor transposed,
paddle.matmul(A, B, transpose_x=True). -/
def matmulTx {b c m n : ℕ} (A : T3 b c m) (B : T3 b c n) : T3 b m n :=
  fun bi i j => ∑ ch, A bi ch i * B bi ch j

/-- Concatenation of two rank-3 tensors along the channel axis,
paddle.concat([main, extra], axis=1). -/
def catCh {b c p n : ℕ} (main : T3 b c n) (extra : T3 b p n) : T3 b (c + p) n :=
  fun bi ch k =>
    if hc : ch.1 < c then main bi ⟨ch.1, hc⟩ k
    else extra bi ⟨ch.1 - c, by have := ch.2; omega⟩ k

/-- Per-row softmax over the last axis: F.softmax(v, axis=-1) on one row. -/
noncomputable def softmaxRow {n : ℕ} (v : Fin n → ℝ) : Fin n → ℝ :=
  fun i => Real.exp (v i) / ∑ j, Real.exp (v j)

/-- Softmax over the last axis of a rank-3 tensor, F.softmax(t, axis=-1). -/
noncomputable def softmaxLast {b m n : ℕ} (t : T3 b m n) : T3 b m n :=
  fun bi i => softmaxRow (t bi i)

/-- Element-wise ReLU on a rank-4 tensor (nn.ReLU()). -/
def reluT4 {b c h w : ℕ} (t : T4 b c h w) : T4 b c h w :=
  fun bi ch i j => max (t bi ch i j) 0

/-- Element-wise tanh on a rank-4 tensor (paddle.tanh). -/
noncomputable def tanhT4 {b c h w : ℕ} (t : T4 b c h w) : T4 b c h w :=
  fun bi ch i j => Real.tanh (t bi ch i j)

/-- PONO.forward: positional normalization.  mean and var are taken across the
channel axis (axis=1, keepdim), var is the mean of the squared deviations, and
the result is (x - mean) / sqrt(var + eps). -/
noncomputable def PONO.forward {b c h w : ℕ} (eps : ℝ) (x : T4 b c h w) :
    T4 b c h w :=
  fun bi ch i j =>
    let mean := (∑ cc, x bi cc i j) / (c : ℝ)
    let var := (∑ cc, (x bi cc i j - mean) ^ 2) / (c : ℝ)
    (x bi ch i j - mean) / Real.sqrt (var + eps)

/-- Default eps of the PONO constructor. -/
noncomputable def PONO.defaultEps : ℝ := 1e-5

/-- Mean of a channel fiber, written independently of the source, following
the spec sentence about per-spatial-position statistics across the channel
axis. -/
noncomputable def specChannelMean {c : ℕ} (v : Fin c → ℝ) : ℝ :=
  (∑ i, v i) / (c : ℝ)

/-- Variance of a channel fiber in the mean-of-squares-minus-squared-mean
form, written independently of the source from the spec sentence. -/
noncomputable def specChannelVar {c : ℕ} (v : Fin c → ℝ) : ℝ :=
  (∑ i, v i ^ 2) / (c : ℝ) - specChannelMean v ^ 2

/-- Normalization of a single channel fiber as described by the spec:
(x - mean) / sqrt(var + eps) with per-position channel statistics. -/
noncomputable def specNormalizeFiber {c : ℕ} (eps : ℝ) (v : Fin c → ℝ) :
    Fin c → ℝ :=
  fun ch => (v ch - specChannelMean v) / Real.sqrt (specChannelVar v + eps)

/-- Value accepted by the weight_attr / bias_attr keywords of
nn.InstanceNorm2D in this file: Python None (framework default, learnable
affine parameters) or Python False (no affine parameters). -/
inductive ParamAttr where
  | pyNone : ParamAttr
  | pyFalse : ParamAttr
deriving DecidableEq

/-- The pair (weight_attr, bias_attr) chosen by ResidualBlock.__init__. -/
structure NormAttrs where
  weight_attr : ParamAttr
  bias_attr : ParamAttr
deriving DecidableEq

/-- Python-level error raised when a local variable is referenced before
assignment. -/
inductive PyErr where
  | unboundLocal : PyErr
deriving DecidableEq

/-- Character codes of the Python string constant used for mode 't'. -/
def modeT : List ℕ := [116]

/-- Character codes of the Python string constant used for mode 'p'. -/
def modeP : List ℕ := [112]

/-- ResidualBlock.__init__ attribute selection: mode 't' sets both attrs to
False; mode 'p' or None sets both to None; any other mode leaves the locals
weight_attr and bias_attr unassigned, so the later reference
weight_attr=weight_attr raises UnboundLocalError. -/
def ResidualBlock.initNormAttrs (mode : Option (List ℕ)) :
    Except PyErr NormAttrs :=
  if mode = some modeT then
    Except.ok ⟨ParamAttr.pyFalse, ParamAttr.pyFalse⟩
  else if mode = some modeP ∨ mode = none then
    Except.ok ⟨ParamAttr.pyNone, ParamAttr.pyNone⟩
  else
    Except.error PyErr.unboundLocal

/-- Output length of one spatial dimension of nn.Conv2D with kernel k,
stride s, padding p applied to length h: (h + 2p - k) / s + 1. -/
def convOutDim (k s p h : ℕ) : ℕ := (h + 2 * p - k) / s + 1

/-- Shape (channels, height, width) of a non-batch feature map. -/
structure Shape3 where
  c : ℕ
  h : ℕ
  w : ℕ
deriving DecidableEq

/-- Shape action of nn.Conv2D(cin, cout, kernel_size=k, stride=s, padding=p). -/
def conv2dShape (cout k s p : ℕ) (sh : Shape3) : Shape3 :=
  ⟨cout, convOutDim k s p sh.h, convOutDim k s p sh.w⟩

/-- Shape action of nn.InstanceNorm2D and nn.ReLU: identity. -/
def idShape (sh : Shape3) : Shape3 := sh

/-- Shape action of ResidualBlock.main: two kernel-3 stride-1 padding-1
convolutions (dim_in to dim_out, then dim_out to dim_out) with shape-preserving
normalizations and activation between them. -/
def residualBlockShape (dimOut : ℕ) (sh : Shape3) : Shape3 :=
  conv2dShape dimOut 3 1 1 (conv2dShape dimOut 3 1 1 sh)

/-- Shape actions of the down-sampling loop of MDNet / TNetDown: each
iteration appends Conv2D(curr, curr*2, kernel_size=4, stride=2, padding=1),
InstanceNorm2D, ReLU, then doubles curr. -/
def downSampleShapes (curr : ℕ) : ℕ → List (Shape3 → Shape3)
  | 0 => []
  | m + 1 =>
      [conv2dShape (curr * 2) 4 2 1, idShape, idShape] ++
        downSampleShapes (curr * 2) m

/-- Shape actions of the layer list shared by MDNet and TNetDown: a 7x7
stride-1 padding-3 convolution to conv_dim channels, InstanceNorm2D, ReLU, two
down-sampling stages, then repeat_num residual blocks at conv_dim*4 channels.
The two classes differ only in whether the normalization layers carry
learnable affine parameters, which does not affect shapes. -/
def encoderLayerShapes (conv_dim repeat_num : ℕ) : List (Shape3 → Shape3) :=
  [conv2dShape conv_dim 7 1 3, idShape, idShape] ++
    downSampleShapes conv_dim 2 ++
    List.replicate repeat_num (residualBlockShape (conv_dim * 2 * 2))

/-- Output shape of MDNet.forward (shape action of self.main). -/
def MDNet.outShape (conv_dim repeat_num : ℕ) (sh : Shape3) : Shape3 :=
  (encoderLayerShapes conv_dim repeat_num).foldl (fun s f => f s) sh

/-- Output shape of TNetDown.forward (shape action of self.main; identical
layer geometry to MDNet, with non-learnable normalization). -/
def TNetDown.outShape (conv_dim repeat_num : ℕ) (sh : Shape3) : Shape3 :=
  (encoderLayerShapes conv_dim repeat_num).foldl (fun s f => f s) sh

/-- GetMatrix: two independent 1x1 stride-1 padding-0 bias-free convolutions
producing the single-channel gamma and beta maps; each is determined by one
weight per input channel. -/
structure GetMatrix (dimIn : ℕ) where
  get_gamma : Fin dimIn → ℝ
  get_beta : Fin dimIn → ℝ

/-- GetMatrix.forward: gamma = self.get_gamma(x), beta = self.get_beta(x),
returned in that order. -/
def GetMatrix.fwd {dimIn b h w : ℕ} (g : GetMatrix dimIn) (x : T4 b dimIn h w) :
    T4 b 1 h w × T4 b 1 h w :=
  (fun bi _ i j => ∑ cc, g.get_gamma cc * x bi cc i j,
   fun bi _ i j => ∑ cc, g.get_beta cc * x bi cc i j)

/-- MANet: the attention fusion network.  Learned sub-modules with opaque
weights (encoder, the unused 3x3 beta/gamma convolutions, the bottleneck
residual blocks, the up-sampling stacks with their unused up_betas/up_gammas
transposed convolutions, and img_reg) are function-valued fields whose types
record their output shapes; simple_spade is the concrete 1x1-convolution
MatrixHead. -/
structure MANet (conv_dim : ℕ) where
  w : ℝ
  encoder : ∀ b h wd, T4 b 3 h wd → T4 b (conv_dim * 4) (h / 4) (wd / 4)
  beta : ∀ b h wd,
    T4 b (conv_dim * 4) h wd → T4 b (conv_dim * 4) h wd
  gamma : ∀ b h wd,
    T4 b (conv_dim * 4) h wd → T4 b (conv_dim * 4) h wd
  simple_spade : GetMatrix (conv_dim * 4)
  repeat_num : ℕ
  bottlenecks : ℕ → ∀ b h wd,
    T4 b (conv_dim * 4) h wd → T4 b (conv_dim * 4) h wd
  up_samplers_0 : ∀ b h wd,
    T4 b (conv_dim * 4) h wd → T4 b (conv_dim * 2) (2 * h) (2 * wd)
  up_samplers_1 : ∀ b h wd,
    T4 b (conv_dim * 2) h wd → T4 b conv_dim (2 * h) (2 * wd)
  up_betas_0 : ∀ b h wd,
    T4 b (conv_dim * 4) h wd → T4 b (conv_dim * 2) (2 * h) (2 * wd)
  up_betas_1 : ∀ b h wd,
    T4 b (conv_dim * 4) h wd → T4 b conv_dim (2 * h) (2 * wd)
  up_gammas_0 : ∀ b h wd,
    T4 b (conv_dim * 4) h wd → T4 b (conv_dim * 2) (2 * h) (2 * wd)
  up_gammas_1 : ∀ b h wd,
    T4 b (conv_dim * 4) h wd → T4 b conv_dim (2 * h) (2 * wd)
  img_reg : ∀ b h wd, T4 b conv_dim h wd → T4 b 3 h wd

/-- The correlation logits of MANet.forward: encode x, flatten both feature
maps, damp both by w, concatenate the optional positional side channels
(x_p with x_flat and y_p with y_flat; the source accepts them separately but
any run that supplies only one fails the matmul shape check, so the success
path carries them as a pair), then matmul(x_flat, y_flat, transpose_x=True)
times 200.0. -/
noncomputable def MANet.attentionLogits {conv_dim : ℕ} (m : MANet conv_dim)
    {b h wd p : ℕ} (x : T4 b 3 h wd)
    (y : T4 b (conv_dim * 4) (h / 4) (wd / 4))
    (side : Option (T3 b p (h / 4 * (wd / 4)) × T3 b p (h / 4 * (wd / 4)))) :
    T3 b (h / 4 * (wd / 4)) (h / 4 * (wd / 4)) :=
  let xe := m.encoder b h wd x
  let x_flat : T3 b (conv_dim * 4) (h / 4 * (wd / 4)) :=
    fun bi cc k => m.w * reshapeT4toT3 xe bi cc k
  let y_flat : T3 b (conv_dim * 4) (h / 4 * (wd / 4)) :=
    fun bi cc k => m.w * reshapeT4toT3 y bi cc k
  match side with
  | none => fun bi i j => matmulTx x_flat y_flat bi i j * 200
  | some sp =>
      fun bi i j => matmulTx (catCh x_flat sp.1) (catCh y_flat sp.2) bi i j * 200

/-- The attention matrix of MANet.forward: the logits, shifted by
-100.0 * (1 - consistency_mask) when the mask is supplied, then softmax over
the reference-position (last) axis. -/
noncomputable def MANet.attention {conv_dim : ℕ} (m : MANet conv_dim)
    {b h wd p : ℕ} (x : T4 b 3 h wd)
    (y : T4 b (conv_dim * 4) (h / 4) (wd / 4))
    (side : Option (T3 b p (h / 4 * (wd / 4)) × T3 b p (h / 4 * (wd / 4))))
    (consistency_mask : Option (T3 b (h / 4 * (wd / 4)) (h / 4 * (wd / 4)))) :
    T3 b (h / 4 * (wd / 4)) (h / 4 * (wd / 4)) :=
  let a0 := m.attentionLogits x y side
  let a1 := match consistency_mask with
    | none => a0
    | some mask => fun bi i j => a0 bi i j - 100 * (1 - mask bi i j)
  softmaxLast a1

/-- The fused source feature map of MANet.forward: gamma, beta from
simple_spade run on y, each reshaped to a column, multiplied by the attention
matrix, reshaped back to a single-channel map, and applied to the encoded
source features as x * (1 + gamma) + beta (broadcast over channels). -/
noncomputable def MANet.fusedFeature {conv_dim : ℕ} (m : MANet conv_dim)
    {b h wd p : ℕ} (x : T4 b 3 h wd)
    (y : T4 b (conv_dim * 4) (h / 4) (wd / 4))
    (side : Option (T3 b p (h / 4 * (wd / 4)) × T3 b p (h / 4 * (wd / 4))))
    (consistency_mask : Option (T3 b (h / 4 * (wd / 4)) (h / 4 * (wd / 4)))) :
    T4 b (conv_dim * 4) (h / 4) (wd / 4) :=
  let xe := m.encoder b h wd x
  let a := m.attention x y side consistency_mask
  let gb := m.simple_spade.fwd y
  let betaW := reshapeT3toT4 (matmul3 a (reshapeCol gb.2))
  let gammaW := reshapeT3toT4 (matmul3 a (reshapeCol gb.1))
  fun bi cc i j =>
    xe bi cc i j * (1 + gammaW bi 0 i j) + betaW bi 0 i j

/-- MANet.forward: fuse the attended modulation into the encoded source
features, run the repeat_num bottleneck residual blocks, the two up-sampling
stages each followed by its ReLU up_act, the final img_reg convolution and
tanh; return the synthesized image together with the attention matrix.
mask_x and mask_y are accepted and ignored, as in the source. -/
noncomputable def MANet.forward {conv_dim : ℕ} (m : MANet conv_dim)
    {b h wd p : ℕ} (x : T4 b 3 h wd)
    (y : T4 b (conv_dim * 4) (h / 4) (wd / 4))
    (side : Option (T3 b p (h / 4 * (wd / 4)) × T3 b p (h / 4 * (wd / 4))))
    (consistency_mask : Option (T3 b (h / 4 * (wd / 4)) (h / 4 * (wd / 4))))
    (mask_x mask_y : Option (T4 b 1 h wd)) :
    T4 b 3 (2 * (2 * (h / 4))) (2 * (2 * (wd / 4))) ×
      T3 b (h / 4 * (wd / 4)) (h / 4 * (wd / 4)) :=
  let a := m.attention x y side consistency_mask
  let xf := m.fusedFeature x y side consistency_mask
  let xb := (List.range m.repeat_num).foldl
    (fun acc i => m.bottlenecks i b (h / 4) (wd / 4) acc) xf
  let xu0 := reluT4 (m.up_samplers_0 b (h / 4) (wd / 4) xb)
  let xu1 := reluT4 (m.up_samplers_1 b (2 * (h / 4)) (2 * (wd / 4)) xu0)
  (tanhT4 (m.img_reg b (2 * (2 * (h / 4))) (2 * (2 * (wd / 4))) xu1), a)

/-- GeneratorPSGANAttention: md_net is the MDNet reference-branch encoder
(opaque learned weights, with the shape proved for the concrete layer stack),
ma_net the attention fusion network. -/
structure GeneratorPSGANAttention (conv_dim : ℕ) where
  ma_net : MANet conv_dim
  md_net : ∀ b h wd, T4 b 3 h wd → T4 b (conv_dim * 4) (h / 4) (wd / 4)

/-- GeneratorPSGANAttention.forward: encode y with md_net, then run
ma_net.forward on x against the encoded reference features. -/
noncomputable def GeneratorPSGANAttention.forward {conv_dim : ℕ}
    (g : GeneratorPSGANAttention conv_dim) {b h wd p : ℕ}
    (x y : T4 b 3 h wd)
    (side : Option (T3 b p (h / 4 * (wd / 4)) × T3 b p (h / 4 * (wd / 4))))
    (consistency_mask : Option (T3 b (h / 4 * (wd / 4)) (h / 4 * (wd / 4))))
    (mask_x mask_y : Option (T4 b 1 h wd)) :
    T4 b 3 (2 * (2 * (h / 4))) (2 * (2 * (wd / 4))) ×
      T3 b (h / 4 * (wd / 4)) (h / 4 * (wd / 4)) :=
  let ye := g.md_net b h wd y
  g.ma_net.forward x ye side consistency_mask mask_x mask_y

/-- Modelled from the spec: the "unmasked-probability mass" of an attention
row, i.e. "the softmax mass remaining on mask-allowed reference positions" of
the unmasked softmax of the row's logits. -/
noncomputable def unmaskedMass {n : ℕ} (v : Fin n → ℝ) (mask : Fin n → ℝ) :
    ℝ :=
  ∑ j, mask j * softmaxRow v j

/-- A small concrete MANet instance (conv_dim = 1): constant encoder output,
identity bottlenecks, zero up-sampling stacks, all 1x1 MatrixHead weights 1.
Used to evaluate the claims on explicit inputs. -/
noncomputable def mTest : MANet 1 where
  w := 1
  encoder := fun _ _ _ _ => fun _ _ _ _ => 1
  beta := fun _ _ _ t => t
  gamma := fun _ _ _ t => t
  simple_spade := ⟨fun _ => 1, fun _ => 1⟩
  repeat_num := 0
  bottlenecks := fun _ _ _ _ t => t
  up_samplers_0 := fun _ _ _ _ => fun _ _ _ _ => 0
  up_samplers_1 := fun _ _ _ _ => fun _ _ _ _ => 0
  up_betas_0 := fun _ _ _ _ => fun _ _ _ _ => 0
  up_betas_1 := fun _ _ _ _ => fun _ _ _ _ => 0
  up_gammas_0 := fun _ _ _ _ => fun _ _ _ _ => 0
  up_gammas_1 := fun _ _ _ _ => fun _ _ _ _ => 0
  img_reg := fun _ _ _ _ => fun _ _ _ _ => 0

/-- Concrete source image for the small instance: 3 x 4 x 8, all zeros (the
constant encoder ignores it). -/
def xTest : T4 1 3 4 8 := fun _ _ _ _ => 0

/-- Concrete reference feature map for the small instance: 4 channels at
1 x 2, every channel equal to the column index, so the two flattened
reference positions carry distinct feature vectors. -/
def yTest : T4 1 4 1 2 := fun _ _ _ j => (j.1 : ℝ)

/-- All-zero consistency mask on the 2 x 2 attention logits of the small
instance. -/
def maskZ : T3 1 2 2 := fun _ _ _ => 0

/-- Consistency mask keeping only reference position 0 (eliminating the
competitor position 1) for every source position of the small instance. -/
def mask1 : T3 1 2 2 := fun _ _ j => if j.1 = 0 then 1 else 0

/-- Concrete 2-channel feature map for evaluating PONO at one position. -/
def xC6 : T4 1 2 1 1 := fun _ cc _ _ => (cc.1 : ℝ)

/-- The denominator of the softmax is positive on a nonempty row. -/
theorem sum_exp_pos {n : ℕ} (hn : 0 < n) (v : Fin n → ℝ) :
    0 < ∑ j, Real.exp (v j) := by
  have : Nonempty (Fin n) := ⟨⟨0, hn⟩⟩
  exact Finset.sum_pos (fun j _ => Real.exp_pos (v j)) Finset.univ_nonempty

/-- Every softmax entry is positive on a nonempty row. -/
theorem softmaxRow_pos {n : ℕ} (hn : 0 < n) (v : Fin n → ℝ) (i : Fin n) :
    0 < softmaxRow v i :=
  div_pos (Real.exp_pos (v i)) (sum_exp_pos hn v)

/-- A softmax row sums to 1. -/
theorem softmaxRow_sum_one {n : ℕ} (hn : 0 < n) (v : Fin n → ℝ) :
    ∑ i, softmaxRow v i = 1 := by
  unfold softmaxRow
  rw [← Finset.sum_div]
  exact div_self (ne_of_gt (sum_exp_pos hn v))

/-- Softmax is invariant under subtracting the same constant from every
logit of a row. -/
theorem softmaxRow_shift {n : ℕ} (v : Fin n → ℝ) (cst : ℝ) (i : Fin n) :
    softmaxRow (fun j => v j - cst) i = softmaxRow v i := by
  unfold softmaxRow
  have he : Real.exp cst ≠ 0 := (Real.exp_pos cst).ne'
  simp only [Real.exp_sub]
  rw [← Finset.sum_div]
  rw [div_div_div_cancel_right₀ he]

/-- Softmax entries are strictly ordered like their logits. -/
theorem softmaxRow_lt_of_lt {n : ℕ} (v : Fin n → ℝ) {i j : Fin n}
    (h : v i < v j) : softmaxRow v i < softmaxRow v j :=
  div_lt_div_of_pos_right (Real.exp_lt_exp.mpr h) (sum_exp_pos i.pos v)

/-- On a two-entry row with a strictly smaller first logit, the first softmax
entry is strictly below one half. -/
theorem softmaxRow_fst_lt_half (v : Fin 2 → ℝ) (h : v 0 < v 1) :
    softmaxRow v 0 < 1 / 2 := by
  have hsum := softmaxRow_sum_one (by norm_num) v
  rw [Fin.sum_univ_two] at hsum
  have hlt := softmaxRow_lt_of_lt v h
  linarith

/-- The second component of MANet.forward is the attention matrix. -/
theorem MANet.forward_snd {conv_dim b h wd p : ℕ} (m : MANet conv_dim)
    (x : T4 b 3 h wd) (y : T4 b (conv_dim * 4) (h / 4) (wd / 4))
    (side : Option (T3 b p (h / 4 * (wd / 4)) × T3 b p (h / 4 * (wd / 4))))
    (consistency_mask : Option (T3 b (h / 4 * (wd / 4)) (h / 4 * (wd / 4))))
    (mask_x mask_y : Option (T4 b 1 h wd)) :
    (m.forward x y side consistency_mask mask_x mask_y).2 =
      m.attention x y side consistency_mask := rfl

/-- Every row of the attention matrix sums to exactly 1, with or without a
consistency mask: the softmax renormalizes whatever logits it receives. -/
theorem MANet.attention_row_sum {conv_dim b h wd p : ℕ} (m : MANet conv_dim)
    (x : T4 b 3 h wd) (y : T4 b (conv_dim * 4) (h / 4) (wd / 4))
    (side : Option (T3 b p (h / 4 * (wd / 4)) × T3 b p (h / 4 * (wd / 4))))
    (consistency_mask : Option (T3 b (h / 4 * (wd / 4)) (h / 4 * (wd / 4))))
    (bi : Fin b) (i : Fin (h / 4 * (wd / 4))) :
    ∑ j, m.attention x y side consistency_mask bi i j = 1 := by
  cases consistency_mask with
  | none => exact softmaxRow_sum_one i.pos _
  | some mask => exact softmaxRow_sum_one i.pos _

/-- C1: for every batch element and every source position, when MANet.forward
is called with consistency_mask = None, the corresponding row of the returned
attention matrix sums to 1.0 up to a tolerance of 1e-5 (in the real-valued
model the sum is exactly 1). -/
theorem C1_unmasked_attention_rows_sum_one {conv_dim b h wd p : ℕ}
    (m : MANet conv_dim) (x : T4 b 3 h wd)
    (y : T4 b (conv_dim * 4) (h / 4) (wd / 4))
    (side : Option (T3 b p (h / 4 * (wd / 4)) × T3 b p (h / 4 * (wd / 4))))
    (mask_x mask_y : Option (T4 b 1 h wd))
    (bi : Fin b) (i : Fin (h / 4 * (wd / 4))) :
    |(∑ j, (m.forward x y side none mask_x mask_y).2 bi i j) - 1| ≤ 1e-5 := by
  rw [MANet.forward_snd, MANet.attention_row_sum]
  norm_num

/-- C4 counterexample: on the small concrete instance with a consistency mask
that eliminates the competitor reference position 1, the attention row still
sums to 1, while the unmasked-probability mass remaining on the mask-allowed
position is strictly below 1; the claimed equality of the two fails. -/
theorem C4_counterexample :
    (∑ j, (mTest.forward xTest yTest
        (none : Option (T3 1 0 2 × T3 1 0 2)) (some mask1) none none).2 0 0 j)
      ≠ unmaskedMass
          (mTest.attentionLogits xTest yTest
            (none : Option (T3 1 0 2 × T3 1 0 2)) 0 0)
          (mask1 0 0) := by
  rw [MANet.forward_snd, MANet.attention_row_sum]
  unfold unmaskedMass
  rw [Fin.sum_univ_two]
  have h0 : mask1 0 0 0 = 1 := rfl
  have h1 : mask1 0 0 1 = 0 := rfl
  rw [h0, h1]
  have hpos := softmaxRow_pos (n := 2) (by norm_num)
    (mTest.attentionLogits xTest yTest
      (none : Option (T3 1 0 2 × T3 1 0 2)) 0 0) 1
  have hsum := softmaxRow_sum_one (n := 2) (by norm_num)
    (mTest.attentionLogits xTest yTest
      (none : Option (T3 1 0 2 × T3 1 0 2)) 0 0)
  rw [Fin.sum_univ_two] at hsum
  intro hcontra
  rw [one_mul, zero_mul, add_zero] at hcontra
  linarith

/-- C4 amended: every row of the attention matrix returned by MANet.forward
sums to exactly 1 for every consistency mask (all-one, partial, or absent):
the softmax renormalizes over all reference positions, suppressed ones
included, so the row sum is 1 rather than the unmasked-probability mass. -/
theorem C4_masked_attention_rows_sum_one {conv_dim b h wd p : ℕ}
    (m : MANet conv_dim) (x : T4 b 3 h wd)
    (y : T4 b (conv_dim * 4) (h / 4) (wd / 4))
    (side : Option (T3 b p (h / 4 * (wd / 4)) × T3 b p (h / 4 * (wd / 4))))
    (consistency_mask : Option (T3 b (h / 4 * (wd / 4)) (h / 4 * (wd / 4))))
    (mask_x mask_y : Option (T4 b 1 h wd))
    (bi : Fin b) (i : Fin (h / 4 * (wd / 4))) :
    ∑ j, (m.forward x y side consistency_mask mask_x mask_y).2 bi i j = 1 := by
  rw [MANet.forward_snd, MANet.attention_row_sum]

/-- C5: the fused source feature map computed by MANet.forward satisfies, at
every batch element, channel and source spatial position (i, j), the formula
x_enc * (1 + weighted_gamma) + weighted_beta, where weighted_gamma and
weighted_beta at (i, j) are the attention-weighted combinations (rows of the
matrix products a * gamma_flat and a * beta_flat) of the single-channel
MatrixHead maps over all reference positions, with gamma and beta broadcast
over channels. -/
theorem C5_fusion_formula {conv_dim b h wd p : ℕ} (m : MANet conv_dim)
    (x : T4 b 3 h wd) (y : T4 b (conv_dim * 4) (h / 4) (wd / 4))
    (side : Option (T3 b p (h / 4 * (wd / 4)) × T3 b p (h / 4 * (wd / 4))))
    (consistency_mask : Option (T3 b (h / 4 * (wd / 4)) (h / 4 * (wd / 4))))
    (bi : Fin b) (cc : Fin (conv_dim * 4)) (i : Fin (h / 4))
    (j : Fin (wd / 4)) :
    m.fusedFeature x y side consistency_mask bi cc i j =
      m.encoder b h wd x bi cc i j *
        (1 + ∑ k, m.attention x y side consistency_mask bi (flatIdx i j) k *
          (m.simple_spade.fwd y).1 bi 0 (rowOf k) (colOf k)) +
      ∑ k, m.attention x y side consistency_mask bi (flatIdx i j) k *
        (m.simple_spade.fwd y).2 bi 0 (rowOf k) (colOf k) := rfl

/-- C8: mask_x and mask_y never influence the computation: two invocations of
MANet.forward, and of GeneratorPSGANAttention.forward, agreeing on x, y, the
positional side channels and the consistency mask but differing arbitrarily
in mask_x and mask_y return identical outputs. -/
theorem C8_region_masks_ignored {conv_dim b h wd p : ℕ} (m : MANet conv_dim)
    (g : GeneratorPSGANAttention conv_dim)
    (x : T4 b 3 h wd) (y : T4 b (conv_dim * 4) (h / 4) (wd / 4))
    (xg yg : T4 b 3 h wd)
    (side sideg : Option (T3 b p (h / 4 * (wd / 4)) × T3 b p (h / 4 * (wd / 4))))
    (cm cmg : Option (T3 b (h / 4 * (wd / 4)) (h / 4 * (wd / 4))))
    (mask_x mask_y mask_x2 mask_y2 : Option (T4 b 1 h wd)) :
    m.forward x y side cm mask_x mask_y =
        m.forward x y side cm mask_x2 mask_y2 ∧
      g.forward xg yg sideg cmg mask_x mask_y =
        g.forward xg yg sideg cmg mask_x2 mask_y2 :=
  ⟨rfl, rfl⟩

/-- C10: the 3x3 convolution layers stored as self.beta and self.gamma by
MANet's constructor are never referenced in the forward pass: replacing them
by any two assignments leaves MANet.forward's output unchanged. -/
theorem C10_beta_gamma_layers_unused {conv_dim b h wd p : ℕ}
    (m : MANet conv_dim)
    (beta1 beta2 gamma1 gamma2 : ∀ b h wd,
      T4 b (conv_dim * 4) h wd → T4 b (conv_dim * 4) h wd)
    (x : T4 b 3 h wd) (y : T4 b (conv_dim * 4) (h / 4) (wd / 4))
    (side : Option (T3 b p (h / 4 * (wd / 4)) × T3 b p (h / 4 * (wd / 4))))
    (cm : Option (T3 b (h / 4 * (wd / 4)) (h / 4 * (wd / 4))))
    (mask_x mask_y : Option (T4 b 1 h wd)) :
    ({ m with beta := beta1, gamma := gamma1 } : MANet conv_dim).forward
        x y side cm mask_x mask_y =
      ({ m with beta := beta2, gamma := gamma2 } : MANet conv_dim).forward
        x y side cm mask_x mask_y :=
  rfl

/-- C2 amended: when the consistency_mask row for a given source position is
all-zero, every logit of that row is shifted by the same constant 100, so the
returned attention row equals the row computed with no mask at all (the
unmasked softmax, in general not uniform), and the forward pass does not
fail. -/
theorem C2_allzero_mask_row_equals_unmasked {conv_dim b h wd p : ℕ}
    (m : MANet conv_dim) (x : T4 b 3 h wd)
    (y : T4 b (conv_dim * 4) (h / 4) (wd / 4))
    (side : Option (T3 b p (h / 4 * (wd / 4)) × T3 b p (h / 4 * (wd / 4))))
    (mask : T3 b (h / 4 * (wd / 4)) (h / 4 * (wd / 4)))
    (mask_x mask_y : Option (T4 b 1 h wd))
    (bi : Fin b) (i : Fin (h / 4 * (wd / 4)))
    (hrow : ∀ j, mask bi i j = 0) :
    (m.forward x y side (some mask) mask_x mask_y).2 bi i =
      (m.forward x y side none mask_x mask_y).2 bi i := by
  funext j
  show softmaxRow
      (fun jj => m.attentionLogits x y side bi i jj - 100 * (1 - mask bi i jj))
      j = softmaxRow (m.attentionLogits x y side bi i) j
  have hfun :
      (fun jj => m.attentionLogits x y side bi i jj - 100 * (1 - mask bi i jj))
        = fun jj => m.attentionLogits x y side bi i jj - 100 := by
    funext jj
    rw [hrow jj]
    ring
  rw [hfun]
  exact softmaxRow_shift (m.attentionLogits x y side bi i) 100 j

/-- C2 amended, witness: on the small concrete instance with the all-zero
mask, the first attention row under the mask equals the unmasked row. -/
theorem C2_allzero_mask_row_equals_unmasked_witness :
    (mTest.forward xTest yTest (none : Option (T3 1 0 2 × T3 1 0 2))
        (some maskZ) none none).2 0 0 =
      (mTest.forward xTest yTest (none : Option (T3 1 0 2 × T3 1 0 2))
        none none none).2 0 0 :=
  C2_allzero_mask_row_equals_unmasked mTest xTest yTest
    (none : Option (T3 1 0 2 × T3 1 0 2)) maskZ none none 0 0
    (fun _ => rfl)

/-- The correlation logits of the small concrete instance: with unit damping,
constant-1 encoded source features and reference features equal to the column
index on all 4 channels, the logit for reference position j is
4 * j * 200 = 800 * j, independent of the source position. -/
theorem mTest_logits (i j : Fin 2) :
    mTest.attentionLogits xTest yTest (none : Option (T3 1 0 2 × T3 1 0 2)) 0 i j
      = 800 * (j.1 : ℝ) := by
  simp only [MANet.attentionLogits, matmulTx, reshapeT4toT3, mTest, xTest, yTest]
  simp [colOf, Fin.sum_univ_four, Nat.mod_eq_of_lt j.2]
  ring

/-- C2 counterexample: on this concrete input the consistency mask row is
all-zero, yet the returned attention row is not the uniform distribution
(entry 0 would have to equal 1/2): shifting every logit by the same -100
reproduces the unmasked softmax of the unequal logits 0 and 800. -/
theorem C2_counterexample :
    (mTest.forward xTest yTest (none : Option (T3 1 0 2 × T3 1 0 2))
        (some maskZ) none none).2 0 0 0 ≠ 1 / 2 := by
  show softmaxRow
      (fun jj => mTest.attentionLogits xTest yTest
        (none : Option (T3 1 0 2 × T3 1 0 2)) 0 0 jj
          - 100 * (1 - maskZ 0 0 jj)) 0 ≠ 1 / 2
  have hfun :
      (fun jj : Fin 2 => mTest.attentionLogits xTest yTest
        (none : Option (T3 1 0 2 × T3 1 0 2)) 0 0 jj
          - 100 * (1 - maskZ 0 0 jj))
        = fun jj : Fin 2 => 800 * (jj.1 : ℝ) - 100 := by
    funext jj
    rw [mTest_logits 0 jj]
    show _ - 100 * (1 - 0) = _
    ring
  rw [hfun]
  exact ne_of_lt (softmaxRow_fst_lt_half
    (fun jj : Fin 2 => 800 * (jj.1 : ℝ) - 100)
    (by norm_num [Fin.val_zero, Fin.val_one]))

/-- C3 counterexample: constructing a ResidualBlock with the unrecognized
mode string of character code 120 does not succeed with the default
parametrized configuration; the attribute selection raises instead. -/
theorem C3_counterexample :
    ResidualBlock.initNormAttrs (some [120])
      ≠ Except.ok ⟨ParamAttr.pyNone, ParamAttr.pyNone⟩ := by
  simp [ResidualBlock.initNormAttrs, modeT, modeP]

/-- C3 amended: for every mode that is neither 't' nor 'p' nor None,
ResidualBlock.__init__ raises UnboundLocalError (neither branch of the
if/elif assigns weight_attr and bias_attr, and the InstanceNorm2D call then
references them) instead of falling back to the parametrized default. -/
theorem C3_unrecognized_mode_raises (mode : Option (List ℕ))
    (ht : mode ≠ some modeT) (hp : mode ≠ some modeP) (hn : mode ≠ none) :
    ResidualBlock.initNormAttrs mode = Except.error PyErr.unboundLocal := by
  unfold ResidualBlock.initNormAttrs
  rw [if_neg ht, if_neg (not_or.mpr ⟨hp, hn⟩)]

/-- C3 amended, witness: the unrecognized mode of character code 120 raises. -/
theorem C3_unrecognized_mode_raises_witness :
    ResidualBlock.initNormAttrs (some [120])
      = Except.error PyErr.unboundLocal :=
  C3_unrecognized_mode_raises (some [120]) (by decide) (by decide) (by decide)

/-- C6: PONO.forward returns (x - mean) / sqrt(var + eps) where mean and
variance are taken per spatial position across the channel axis only: at
every coordinate the output equals the spec's normalization of the channel
fiber at that (batch, i, j) position, so it depends on no other spatial or
batch entries, and it is a pure function with no learnable parameters (the
module's only state is the constant eps). -/
theorem C6_pono_matches_spec {b c h w : ℕ} (eps : ℝ) (x : T4 b c h w)
    (bi : Fin b) (ch : Fin c) (i : Fin h) (j : Fin w) (hc : 0 < c) :
    PONO.forward eps x bi ch i j
      = specNormalizeFiber eps (fun cc => x bi cc i j) ch := by
  have hcne : (c : ℝ) ≠ 0 := Nat.cast_ne_zero.mpr hc.ne'
  unfold PONO.forward specNormalizeFiber specChannelVar specChannelMean
  dsimp only
  have hvar : (∑ cc, (x bi cc i j - (∑ cc, x bi cc i j) / (c : ℝ)) ^ 2) / (c : ℝ)
      = (∑ cc, x bi cc i j ^ 2) / (c : ℝ)
        - ((∑ cc, x bi cc i j) / (c : ℝ)) ^ 2 := by
    set mu : ℝ := (∑ cc, x bi cc i j) / (c : ℝ) with hmu
    have hS : ∑ cc, x bi cc i j = (c : ℝ) * mu := by
      rw [hmu]; field_simp
    have hexp : ∑ cc, (x bi cc i j - mu) ^ 2
        = (∑ cc, x bi cc i j ^ 2) - 2 * mu * (∑ cc, x bi cc i j)
          + (c : ℝ) * mu ^ 2 := by
      have hterm : ∀ cc : Fin c, (x bi cc i j - mu) ^ 2
          = x bi cc i j ^ 2 - 2 * mu * x bi cc i j + mu ^ 2 := by
        intro cc; ring
      rw [Finset.sum_congr rfl (fun cc _ => hterm cc)]
      rw [Finset.sum_add_distrib, Finset.sum_sub_distrib, ← Finset.mul_sum]
      simp [Finset.card_univ, mul_comm]
    rw [hexp, hS]
    field_simp
    ring
  rw [hvar]

/-- C6 witness: the equality evaluated on a concrete 2-channel map. -/
theorem C6_pono_matches_spec_witness :
    PONO.forward 1 xC6 0 0 0 0
      = specNormalizeFiber 1 (fun cc => xC6 0 cc 0 0) 0 :=
  C6_pono_matches_spec 1 xC6 0 0 0 0 (by decide)

/-- A ResidualBlock at matching channel count preserves non-degenerate
shapes. -/
theorem residualBlockShape_fixed (c H W : ℕ) (h1 : 1 ≤ H) (h2 : 1 ≤ W) :
    residualBlockShape c ⟨c, H, W⟩ = ⟨c, H, W⟩ := by
  simp only [residualBlockShape, conv2dShape, convOutDim, Shape3.mk.injEq]
  exact ⟨trivial, by omega, by omega⟩

/-- The bottleneck stack of residual blocks preserves non-degenerate shapes. -/
theorem foldl_replicate_resBlock (c H W n : ℕ) (h1 : 1 ≤ H) (h2 : 1 ≤ W) :
    (List.replicate n (residualBlockShape c)).foldl (fun s f => f s) ⟨c, H, W⟩
      = ⟨c, H, W⟩ := by
  induction n with
  | zero => rfl
  | succ k ih =>
      rw [List.replicate_succ, List.foldl_cons]
      show (List.replicate k (residualBlockShape c)).foldl (fun s f => f s)
        (residualBlockShape c ⟨c, H, W⟩) = ⟨c, H, W⟩
      rw [residualBlockShape_fixed c H W h1 h2]
      exact ih

/-- Shape of the shared encoder layer stack: conv_dim*4 channels at
(H/4, W/4) for any valid input size. -/
theorem encoderShape_eq (conv_dim repeat_num H W : ℕ) (hH : 4 ≤ H)
    (hW : 4 ≤ W) :
    (encoderLayerShapes conv_dim repeat_num).foldl (fun s f => f s) ⟨3, H, W⟩
      = ⟨conv_dim * 4, H / 4, W / 4⟩ := by
  have e1 : conv2dShape conv_dim 7 1 3 ⟨3, H, W⟩ = ⟨conv_dim, H, W⟩ := by
    simp only [conv2dShape, convOutDim, Shape3.mk.injEq]
    exact ⟨trivial, by omega, by omega⟩
  have e2 : conv2dShape (conv_dim * 2) 4 2 1 ⟨conv_dim, H, W⟩
      = ⟨conv_dim * 2, H / 2, W / 2⟩ := by
    simp only [conv2dShape, convOutDim, Shape3.mk.injEq]
    exact ⟨trivial, by omega, by omega⟩
  have e3 : conv2dShape (conv_dim * 2 * 2) 4 2 1 ⟨conv_dim * 2, H / 2, W / 2⟩
      = ⟨conv_dim * 2 * 2, H / 4, W / 4⟩ := by
    simp only [conv2dShape, convOutDim, Shape3.mk.injEq]
    exact ⟨trivial, by omega, by omega⟩
  have hmul : conv_dim * 2 * 2 = conv_dim * 4 := by ring
  simp only [encoderLayerShapes, downSampleShapes, List.cons_append,
    List.nil_append, List.append_nil, List.foldl_cons, idShape]
  rw [e1, e2, e3]
  rw [hmul] at *
  exact foldl_replicate_resBlock (conv_dim * 4) (H / 4) (W / 4) repeat_num
    (by omega) (by omega)

/-- C7: for every 3-channel image of height H and width W (valid for the
fixed topology, i.e. at least 4 in each spatial dimension so both stride-2
stages produce non-empty outputs), MDNet and TNetDown output conv_dim*4
channels at spatial resolution floor(H/4) x floor(W/4): the 7x7 stride-1
stage preserves H and W, each of the exactly two stride-2 4x4 stages doubles
the channels and halves the resolution, and the repeat_num residual blocks
preserve the result. -/
theorem C7_feature_encoder_output_shape (conv_dim repeat_num H W : ℕ)
    (hH : 4 ≤ H) (hW : 4 ≤ W) :
    MDNet.outShape conv_dim repeat_num ⟨3, H, W⟩
        = ⟨conv_dim * 4, H / 4, W / 4⟩ ∧
      TNetDown.outShape conv_dim repeat_num ⟨3, H, W⟩
        = ⟨conv_dim * 4, H / 4, W / 4⟩ :=
  ⟨encoderShape_eq conv_dim repeat_num H W hH hW,
   encoderShape_eq conv_dim repeat_num H W hH hW⟩

/-- C7 witness: the default configuration conv_dim = 64, repeat_num = 3 on a
256 x 256 image yields 256 channels at 64 x 64 for both encoders. -/
theorem C7_feature_encoder_output_shape_witness :
    MDNet.outShape 64 3 ⟨3, 256, 256⟩ = ⟨256, 64, 64⟩ ∧
      TNetDown.outShape 64 3 ⟨3, 256, 256⟩ = ⟨256, 64, 64⟩ :=
  C7_feature_encoder_output_shape 64 3 256 256 (by decide) (by decide)

/-- tanh is strictly below 1 on the reals. -/
theorem tanh_lt_one_real (t : ℝ) : Real.tanh t < 1 := by
  rw [Real.tanh_eq_sinh_div_cosh]
  rw [div_lt_one (Real.cosh_pos t)]
  exact Real.sinh_lt_cosh t

/-- tanh is strictly above -1 on the reals. -/
theorem neg_one_lt_tanh_real (t : ℝ) : -1 < Real.tanh t := by
  have h := Real.sinh_lt_cosh (-t)
  rw [Real.sinh_neg, Real.cosh_neg] at h
  rw [Real.tanh_eq_sinh_div_cosh]
  rw [lt_div_iff₀ (Real.cosh_pos t)]
  linarith

/-- Every entry of the image returned by MANet.forward is a tanh value. -/
theorem MANet.forward_fst_is_tanh {conv_dim b h wd p : ℕ} (m : MANet conv_dim)
    (x : T4 b 3 h wd) (y : T4 b (conv_dim * 4) (h / 4) (wd / 4))
    (side : Option (T3 b p (h / 4 * (wd / 4)) × T3 b p (h / 4 * (wd / 4))))
    (cm : Option (T3 b (h / 4 * (wd / 4)) (h / 4 * (wd / 4))))
    (mask_x mask_y : Option (T4 b 1 h wd))
    (bi : Fin b) (cc : Fin 3) (i : Fin (2 * (2 * (h / 4))))
    (j : Fin (2 * (2 * (wd / 4)))) :
    ∃ t : ℝ, (m.forward x y side cm mask_x mask_y).1 bi cc i j = Real.tanh t :=
  ⟨_, rfl⟩

/-- C9: for a batch of 1 and 256 x 256 source and reference images with all
optional inputs absent, GeneratorPSGANAttention.forward returns an image of
shape (1, 3, 256, 256) (the index types; 2*(2*(256/4)) = 256) whose every
value lies in [-1, 1] since it is the output of tanh, together with an
attention matrix of shape (1, 4096, 4096) in which every row sums to
1.0 up to 1e-4 (exactly 1 in the real-valued model). -/
theorem C9_end_to_end (g : GeneratorPSGANAttention 64) (x y : T4 1 3 256 256)
    (bi : Fin 1) (cc : Fin 3) (i j : Fin 256) (si : Fin 4096) :
    (-1 ≤ (g.forward x y (none : Option (T3 1 0 4096 × T3 1 0 4096))
          none none none).1 bi cc i j ∧
        (g.forward x y (none : Option (T3 1 0 4096 × T3 1 0 4096))
          none none none).1 bi cc i j ≤ 1) ∧
      |(∑ rj, (g.forward x y (none : Option (T3 1 0 4096 × T3 1 0 4096))
          none none none).2 bi si rj) - 1| ≤ 1e-4 := by
  constructor
  · obtain ⟨t, ht⟩ := MANet.forward_fst_is_tanh g.ma_net x
      (g.md_net 1 256 256 y) (none : Option (T3 1 0 4096 × T3 1 0 4096))
      none none none bi cc i j
    rw [show (g.forward x y (none : Option (T3 1 0 4096 × T3 1 0 4096))
        none none none).1
      = (g.ma_net.forward x (g.md_net 1 256 256 y)
          (none : Option (T3 1 0 4096 × T3 1 0 4096)) none none none).1
      from rfl]
    rw [ht]
    exact ⟨le_of_lt (neg_one_lt_tanh_real t), le_of_lt (tanh_lt_one_real t)⟩
  · rw [show (g.forward x y (none : Option (T3 1 0 4096 × T3 1 0 4096))
        none none none).2
      = g.ma_net.attention x (g.md_net 1 256 256 y)
          (none : Option (T3 1 0 4096 × T3 1 0 4096)) none
      from rfl]
    rw [MANet.attention_row_sum]
    norm_num
